import Mathlib

/-!
Verification of the MQA_identifier repository: a shallow embedding of its
watermark-detection core (`mqa_identifier.hh`) and of the batch driver
(`main.cc`), together with theorems settling the specification claims.

Machine integers are modelled as `Nat`/`Int` with explicit masks where the
C++ code relies on fixed-width behaviour; C++ exceptions and undefined
behaviour become explicit `Except`/`Option` values.
-/

deriving instance DecidableEq for Except

namespace MQA

/-! ## Rate decoder

`OriginalSampleRateDecoder` embeds the function of the same name in
`mqa_identifier.hh` (lines 27-41).  The C++ function throws
`std::logic_error("Invalid bytecode")` for codes above 15; that is modelled
by `Except.error`.  All arithmetic fits far below `2^32`, so the `uint32_t`
operations are exactly `Nat` operations. -/
def OriginalSampleRateDecoder (c : Nat) : Except String Nat :=
  if c > 15 then .error "Invalid bytecode"
  else
    let base : Nat := if c &&& 1 ≠ 0 then 48000 else 44100
    let multiplier : Nat :=
      1 <<< (((c >>> 3) &&& 1) ||| ((((c >>> 2) &&& 1)) <<< 1) ||| (((c >>> 1) &&& 1) <<< 2))
    let multiplier : Nat := if multiplier > 16 then multiplier * 2 else multiplier
    .ok (base * multiplier)

/-- The decoding rule in the spec's words (§4.1): base 48000 when the low bit
is set else 44100; exponent is the bit-reversed reading of bits 3,2,1
(`bit at position 3` contributes `1`, position 2 contributes `2`, position 1
contributes `4`); multiplier `2^exponent`, doubled once more when above 16;
result `base * multiplier`. -/
def specDecodeOriginalRate (c : Nat) : Nat :=
  let base : Nat := if c.testBit 0 then 48000 else 44100
  let exponent : Nat :=
    (if c.testBit 3 then 1 else 0) + (if c.testBit 2 then 2 else 0) + (if c.testBit 1 then 4 else 0)
  let multiplier : Nat := 2 ^ exponent
  let multiplier : Nat := if multiplier > 16 then multiplier * 2 else multiplier
  base * multiplier

/-! ## Sample model and bit-plane scanner

Samples are pairs of `FLAC__int32`, modelled as `Int`.  The C++ scanner
casts each channel to `uint32_t` before XOR-ing; `u32` performs that cast. -/

def u32 (x : Int) : Nat := (x % (2 ^ 32 : Int)).toNat

/-- `left XOR right` on the `uint32_t` casts, as in `detect()`. -/
def xorDiff (s : Int × Int) : Nat := Nat.xor (u32 s.1) (u32 s.2)

/-- The single bit `((l ^ r) >> pos) & 1` extracted for one sample. -/
def planeBit (pos : Nat) (s : Int × Int) : Nat := (xorDiff s >>> pos) &&& 1

/-- The MQA magic word `0xbe0498c88` (36 bits). -/
def magic : Nat := 0xbe0498c88

/-- The 36-bit register mask `0xFFFFFFFFF`. -/
def mask36 : Nat := 0xFFFFFFFFF

/-- The scan loop of `MQA_identifier::detect()` (`mqa_identifier.hh` lines
184-262), restricted to the synchronisation search: three shift registers
OR in the freshly extracted bit, are compared against `magic` in priority
order 0, 1, 2, and on no match are shifted left and masked to 36 bits.
Returns `some (offset, sampleIndex)` for the first match, `none` when the
samples are exhausted. -/
def scanAux (pos : Nat) : List (Int × Int) → Nat → Nat → Nat → Nat → Option (Nat × Nat)
  | [], _, _, _, _ => none
  | s :: rest, i, b0, b1, b2 =>
    let n0 := b0 ||| planeBit pos s
    let n1 := b1 ||| planeBit (pos + 1) s
    let n2 := b2 ||| planeBit (pos + 2) s
    if n0 = magic then some (0, i)
    else if n1 = magic then some (1, i)
    else if n2 = magic then some (2, i)
    else scanAux pos rest (i + 1) ((n0 <<< 1) &&& mask36) ((n1 <<< 1) &&& mask36)
      ((n2 <<< 1) &&& mask36)

/-- The synchronisation scanner as `detect()` enters it: index 0, all three
registers zero. -/
def scanDetect (samples : List (Int × Int)) (pos : Nat) : Option (Nat × Nat) :=
  scanAux pos samples 0 0 0 0

/-! ## Specification-side view of the scanner

The spec describes the scanner as a 36-bit window sliding over each derived
bit sequence ("bit-plane"), matching the synchronisation constant at the
first sample index where the window equals it, testing offsets 0, 1, 2 in
priority order.  `windowVal` is the last-36-bits word of bit-plane
`pos + k` ending at sample `i`; `specSearch` is the first-match search in
the spec's words. -/

/-- Bit of bit-plane `pos` at sample index `t` (0 outside the stream). -/
def bitAt (samples : List (Int × Int)) (pos t : Nat) : Nat :=
  match samples.get? t with
  | some s => planeBit pos s
  | none => 0

/-- The 36-bit word formed by the last 36 bits of bit-plane `pos + k`
ending at sample index `i` (earlier samples in more significant positions). -/
def windowVal (samples : List (Int × Int)) (pos k : Nat) : Nat → Nat
  | 0 => bitAt samples (pos + k) 0
  | i + 1 => (windowVal samples pos k i * 2 + bitAt samples (pos + k) (i + 1)) % 2 ^ 36

/-- Spec-side search: starting at index `i` with `fuel` indices left, report
the first index whose window matches the constant, preferring offset 0 over
1 over 2 at equal index. -/
def specSearch (samples : List (Int × Int)) (pos : Nat) : Nat → Nat → Option (Nat × Nat)
  | 0, _ => none
  | fuel + 1, i =>
    if windowVal samples pos 0 i = magic then some (0, i)
    else if windowVal samples pos 1 i = magic then some (1, i)
    else if windowVal samples pos 2 i = magic then some (2, i)
    else specSearch samples pos fuel (i + 1)

/-- Spec-side scanner over the whole stream. -/
def specScan (samples : List (Int × Int)) (pos : Nat) : Option (Nat × Nat) :=
  specSearch samples pos samples.length 0

/-! ### Register/window correspondence -/

/-- The register value with which plane `k`'s shift register enters
iteration `i` (the value left by the previous iteration's shift). -/
def regOf (samples : List (Int × Int)) (pos k i : Nat) : Nat :=
  if i = 0 then 0 else (windowVal samples pos k (i - 1) <<< 1) &&& mask36

/-- No plane matches at index `j` below offset 3, phrased for reuse. -/
def noMatchAt (samples : List (Int × Int)) (pos j : Nat) : Prop :=
  ∀ k', k' < 3 → windowVal samples pos k' j ≠ magic

instance noMatchAt.instDecidable (samples : List (Int × Int)) (pos j : Nat) :
    Decidable (noMatchAt samples pos j) :=
  inferInstanceAs (Decidable (∀ k', k' < 3 → windowVal samples pos k' j ≠ magic))

structure DecodeInput where
  sampleRate : Nat
  channels : Nat
  bps : Nat
  decodeError : String
  frames : List (List (Int × Int))
deriving DecidableEq

structure DecodeState where
  decodedSamples : Nat
  samples : List (Int × Int)
  errorMessage : String
deriving DecidableEq

/-- The error text built by `write_callback` on an unsupported format. -/
def unsupportedMessage (channels bps : Nat) : String :=
  "Unsupported Audio Format: " ++ toString channels ++ " channels, " ++ toString bps ++ " bits"

/-- `MyDecoder::write_callback`: abort with an error on a format other than
2 channels and 16 or 24 bits per sample, otherwise count and append the
frame's samples. -/
def write_callback (channels bps : Nat) (frame : List (Int × Int)) (st : DecodeState) :
    DecodeState :=
  if channels ≠ 2 ∨ (bps ≠ 16 ∧ bps ≠ 24) then
    { st with errorMessage := unsupportedMessage channels bps }
  else
    { st with
      decodedSamples := st.decodedSamples + frame.length
      samples := st.samples ++ frame }

/-- The `while` loop of `MyDecoder::decode` (line 158). -/
def decodeLoop (channels bps limit : Nat) : List (List (Int × Int)) → DecodeState → DecodeState
  | [], st => st
  | frame :: rest, st =>
    if st.decodedSamples < limit ∧ st.errorMessage = "" then
      decodeLoop channels bps limit rest (write_callback channels bps frame st)
    else st

/-- `MyDecoder::decode` as observed by `detect`: the final decoder state. -/
def decode (inp : DecodeInput) : DecodeState :=
  decodeLoop inp.channels inp.bps (inp.sampleRate * 3) inp.frames
    ⟨0, [], inp.decodeError⟩

/-! ## Payload extraction and `detect`

After a synchronisation match at sample `i` with offset `k`, `detect` reads
`*(&s + m)` for `m = 3..6` (original-rate field) and `m = 29..33`
(provenance field).  The C++ code performs these reads with raw pointer
arithmetic and no bounds check; a read past the end of the `samples`
vector is undefined behaviour, modelled here by `none`. -/

def fieldBits (samples : List (Int × Int)) (p i top : Nat) : List Nat → Nat → Option Nat
  | [], acc => some acc
  | m :: ms, acc =>
    match samples.get? (i + m) with
    | none => none
    | some s => fieldBits samples p i top ms (acc ||| (planeBit p s <<< (top - m)))

/-- The 4-bit original-sample-rate field (`for (auto m = 3u; m < 7; m++)`). -/
def extractORSF (samples : List (Int × Int)) (p i : Nat) : Option Nat :=
  fieldBits samples p i 6 [3, 4, 5, 6] 0

/-- The 5-bit provenance field (`for (auto m = 29u; m < 34; m++)`). -/
def extractProvenance (samples : List (Int × Int)) (p i : Nat) : Option Nat :=
  fieldBits samples p i 33 [29, 30, 31, 32, 33] 0

structure DetectResult where
  isMQA : Bool
  isMQAStudio : Bool
  originalSampleRate : Nat
  errorMessage : String
deriving DecidableEq

/-- The post-match part of `detect`: original-rate field, rate decoding
(whose `std::logic_error` is caught by `detect`'s handler, producing
`"Exception: " ++ e` and a `false` return), then the provenance field.
`none` marks an out-of-bounds sample read (undefined behaviour). -/
def detectAfterMatch (samples : List (Int × Int)) (pos k i : Nat) : Option DetectResult :=
  match extractORSF samples (pos + k) i with
  | none => none
  | some orsf =>
    match OriginalSampleRateDecoder orsf with
    | .error e => some ⟨false, false, 0, "Exception: " ++ e⟩
    | .ok rate =>
      match extractProvenance samples (pos + k) i with
      | none => none
      | some prov => some ⟨true, prov > 8, rate, ""⟩

/-- `MQA_identifier::detect` after a successful (non-throwing) decode call:
report a decoder error verbatim, otherwise scan and extract. -/
def detectOk (inp : DecodeInput) : Option DetectResult :=
  let st := decode inp
  if st.errorMessage ≠ "" then some ⟨false, false, 0, st.errorMessage⟩
  else
    match scanDetect st.samples (inp.bps - 16) with
    | none => some ⟨false, false, 0, ""⟩
    | some (k, i) => detectAfterMatch st.samples (inp.bps - 16) k i

/-- Message produced by `detect`'s two catch clauses (lines 263-268). -/
def excMsg : Option String → String
  | some w => "Exception: " ++ w
  | none => "Unknown exception during detection"

/-- `MQA_identifier::detect` with its surrounding try/catch: a C++ exception
escaping the decode step is modelled by the `.error` constructor and handled
by the catch clauses; `none` marks undefined behaviour (an out-of-bounds
read), which no catch clause intercepts. -/
def detect (dec : Except (Option String) DecodeInput) : Option DetectResult :=
  match dec with
  | .error e => some ⟨false, false, 0, excMsg e⟩
  | .ok inp => detectOk inp

/-- A 36-sample stereo stream whose plane-0 XOR bit sequence spells the
magic word (most significant bit first), used as a concrete test vector. -/
def syncSamples : List (Int × Int) :=
  (List.range 36).map (fun t => (Int.ofNat ((magic >>> (35 - t)) &&& 1), 0))

/-! ### Decoder-loop lemmas -/

structure RunCounters where
  scanned_count : Nat
  mqa_count : Nat
deriving DecidableEq

/-- Outcome of the FLAC-header validation block (lines 235-261). -/
inductive HeaderCheck where
  | invalid
  | threw (msg : String)
  | valid
deriving DecidableEq

/-- Outcome of constructing the `MQA_identifier` (lines 266-281). -/
inductive CtorOutcome where
  | threw (msg : Option String)
  | ok
deriving DecidableEq

/-- Outcome of the guarded `detect()` call (lines 288-303): an escaped
exception, or completion with the returned flag and the recorded error
message. -/
inductive DetectOutcome where
  | threw (msg : Option String)
  | completed (detected : Bool) (errMsg : String)
deriving DecidableEq

/-- Effect of one `processFile` call on the run counters. -/
def processFile (hc : HeaderCheck) (ct : CtorOutcome) (det : DetectOutcome)
    (c : RunCounters) : RunCounters :=
  match hc with
  | .invalid => { c with scanned_count := c.scanned_count + 1 }
  | .threw _ => { c with scanned_count := c.scanned_count + 1 }
  | .valid =>
    match ct with
    | .threw _ => { c with scanned_count := c.scanned_count + 1 }
    | .ok =>
      match det with
      | .threw _ => { c with scanned_count := c.scanned_count + 1 }
      | .completed detected _ =>
        if detected then
          { scanned_count := c.scanned_count + 1, mqa_count := c.mqa_count + 1 }
        else
          { c with scanned_count := c.scanned_count + 1 }

/-- A task's outcome counts as a positive detection exactly when the header
was valid, construction succeeded, and `detect()` returned `true`. -/
def isDetected (hc : HeaderCheck) (ct : CtorOutcome) (det : DetectOutcome) : Bool :=
  match hc, ct, det with
  | .valid, .ok, .completed true _ => true
  | _, _, _ => false

/-- One per-file task of a batch run. -/
structure FileTask where
  header : HeaderCheck
  construction : CtorOutcome
  detection : DetectOutcome
deriving DecidableEq

/-- The batch loop of `main` (lines 461-471): `processFile` over each file. -/
def runBatch (tasks : List FileTask) (c : RunCounters) : RunCounters :=
  tasks.foldl (fun acc t => processFile t.header t.construction t.detection acc) c

/-! ## Tag writer model (`main.cc`, `tagFile`, lines 97-173)

The Vorbis comment block is a list of (name, value) entries; `none` stands
for a file whose metadata chain has no such block (the C++ code then
creates an empty one).  The second component of the result records whether
`chain.write()` was invoked (`modified`). -/

def hasTag (entries : List (String × String)) (key : String) : Bool :=
  entries.any (fun e => e.1 = key)

/-- The fixed MQAENCODER value written by `tagFile`. -/
def encoderTagValue : String :=
  "MQAEncode v1.1, 2.3.3+800 (a505918), F8EC1703-7616-45E5-B81E-D60821434062, Dec 01 2017 22:19:30"

/-- `tagFile`: in dry-run mode, no mutation at all; otherwise append the
MQAENCODER entry when absent, append the ORIGINALSAMPLERATE entry when the
rate is positive and the entry is absent, and write back only when
something was appended. -/
def tagFile (dry_run : Bool) (block : Option (List (String × String)))
    (original_rate : Nat) : Option (List (String × String)) × Bool :=
  if dry_run then (block, false)
  else
    let es := block.getD []
    let step1 :=
      if hasTag es "MQAENCODER" then (es, false)
      else (es ++ [("MQAENCODER", encoderTagValue)], true)
    let step2 :=
      if 0 < original_rate ∧ hasTag step1.1 "ORIGINALSAMPLERATE" = false then
        (step1.1 ++ [("ORIGINALSAMPLERATE", toString original_rate)], true)
      else (step1.1, false)
    (some step2.1, step1.2 || step2.2)

/-! ## Concrete test vectors -/

/-- A truncated stream: the magic word ends exactly at the last sample, so
no payload samples follow the match. -/
def c2Input : DecodeInput := ⟨48000, 2, 16, "", [syncSamples]⟩

/-- One frame of four sample pairs against a 3-sample budget
(`sampleRate = 1`). -/
def c6Input : DecodeInput := ⟨1, 2, 16, "", [[(0, 0), (0, 0), (0, 0), (0, 0)]]⟩

/-! ## Claim theorems -/

theorem planeBit_le_one (pos : Nat) (s : Int × Int) : planeBit pos s ≤ 1 :=
  Nat.and_le_right

theorem windowVal_lt (samples : List (Int × Int)) (pos k : Nat) :
    ∀ i, windowVal samples pos k i < 2 ^ 36 := by
  intro i
  cases i with
  | zero =>
    have h : bitAt samples (pos + k) 0 ≤ 1 := by
      unfold bitAt
      cases samples.get? 0 with
      | none => exact Nat.zero_le 1
      | some s => exact planeBit_le_one _ s
    calc windowVal samples pos k 0 ≤ 1 := h
      _ < 2 ^ 36 := by norm_num
  | succ j => exact Nat.mod_lt _ (by norm_num)

theorem bitAt_le_one (samples : List (Int × Int)) (pos t : Nat) :
    bitAt samples pos t ≤ 1 := by
  unfold bitAt
  cases samples.get? t with
  | none => exact Nat.zero_le 1
  | some s => exact planeBit_le_one _ s

/-- An even number OR 1 is that number plus 1. -/
theorem even_lor_one (x : Nat) (hx : x % 2 = 0) : x ||| 1 = x + 1 := by
  apply Nat.eq_of_testBit_eq
  intro i
  rw [Nat.testBit_lor]
  cases i with
  | zero =>
    rw [Nat.testBit_zero, Nat.testBit_zero, Nat.testBit_zero]
    have h1 : (x + 1) % 2 = 1 := by omega
    simp [hx, h1]
  | succ n =>
    rw [Nat.testBit_succ, Nat.testBit_succ, Nat.testBit_succ]
    have h2 : (1 : Nat) / 2 = 0 := by norm_num
    have h3 : (x + 1) / 2 = x / 2 := by omega
    rw [h2, h3, Nat.zero_testBit, Bool.or_false]

/-- A register OR a single bit equals addition when the register is even. -/
theorem lor_bit (x b : Nat) (hx : x % 2 = 0) (hb : b ≤ 1) : x ||| b = x + b := by
  interval_cases b
  · exact Nat.or_zero x
  · exact even_lor_one x hx

/-- The end-of-iteration register update (`(w << 1) & mask36`) followed by
OR-ing the next bit computes the window recurrence. -/
theorem shift_mask_lor (w b : Nat) (hb : b ≤ 1) :
    ((w <<< 1) &&& mask36) ||| b = (w * 2 + b) % 2 ^ 36 := by
  have hmask : mask36 = 2 ^ 36 - 1 := by norm_num [mask36]
  rw [Nat.shiftLeft_eq, hmask, Nat.and_pow_two_sub_one_eq_mod]
  have hx : (w * 2 ^ 1) % 2 ^ 36 % 2 = 0 := by
    rw [Nat.mod_mod_of_dvd _ (by norm_num : (2 : Nat) ∣ 2 ^ 36)]
    omega
  rw [lor_bit _ b hx hb]
  have h1 : w * 2 ^ 1 = w * 2 := by norm_num
  rw [h1]
  have h2 : w * 2 % 2 ^ 36 + b < 2 ^ 36 := by
    have := Nat.mod_lt (w * 2) (show 0 < 2 ^ 36 by norm_num)
    have heven : w * 2 % 2 ^ 36 % 2 = 0 := by
      rw [Nat.mod_mod_of_dvd _ (by norm_num : (2 : Nat) ∣ 2 ^ 36)]
      omega
    omega
  have h3 : w * 2 % 2 ^ 36 + b = (w * 2 % 2 ^ 36 + b) % 2 ^ 36 := (Nat.mod_eq_of_lt h2).symm
  rw [h3, Nat.mod_add_mod]

theorem regOf_lor_bit (samples : List (Int × Int)) (pos k i : Nat) :
    regOf samples pos k i ||| bitAt samples (pos + k) i = windowVal samples pos k i := by
  cases i with
  | zero =>
    rw [regOf, if_pos rfl, Nat.zero_or]
    rfl
  | succ j =>
    rw [regOf, if_neg (Nat.succ_ne_zero j)]
    have h := shift_mask_lor (windowVal samples pos k j) (bitAt samples (pos + k) (j + 1))
      (bitAt_le_one _ _ _)
    simpa [windowVal] using h

theorem scanAux_eq_specSearch (samples : List (Int × Int)) (pos : Nat) :
    ∀ (rest : List (Int × Int)) (i b0 b1 b2 : Nat),
      samples.drop i = rest →
      b0 = regOf samples pos 0 i → b1 = regOf samples pos 1 i → b2 = regOf samples pos 2 i →
      scanAux pos rest i b0 b1 b2 = specSearch samples pos (samples.length - i) i := by
  intro rest
  induction rest with
  | nil =>
    intro i b0 b1 b2 hdrop h0 h1 h2
    have hlen : samples.length ≤ i := List.drop_eq_nil_iff_le.mp hdrop
    have hz : samples.length - i = 0 := by omega
    rw [hz]
    rfl
  | cons s rest' ih =>
    intro i b0 b1 b2 hdrop h0 h1 h2
    have hlt : i < samples.length := by
      by_contra hcon
      have : samples.drop i = [] := List.drop_eq_nil_iff_le.mpr (by omega)
      rw [hdrop] at this
      exact List.cons_ne_nil _ _ this
    have hget : samples.get? i = some s := by
      have hgd := List.get?_drop samples i 0
      rw [hdrop] at hgd
      simpa using hgd.symm
    have hbit : ∀ p, planeBit p s = bitAt samples p i := by
      intro p
      rw [bitAt, hget]
    have hdrop' : samples.drop (i + 1) = rest' := by
      have hdd := List.drop_drop 1 i samples
      rw [hdrop] at hdd
      simpa using hdd.symm
    have hw0 : b0 ||| planeBit pos s = windowVal samples pos 0 i := by
      rw [h0, hbit]
      exact regOf_lor_bit samples pos 0 i
    have hw1 : b1 ||| planeBit (pos + 1) s = windowVal samples pos 1 i := by
      rw [h1, hbit]
      exact regOf_lor_bit samples pos 1 i
    have hw2 : b2 ||| planeBit (pos + 2) s = windowVal samples pos 2 i := by
      rw [h2, hbit]
      exact regOf_lor_bit samples pos 2 i
    have hfuel : samples.length - i = (samples.length - (i + 1)) + 1 := by omega
    rw [hfuel]
    show (if b0 ||| planeBit pos s = magic then some (0, i)
      else if b1 ||| planeBit (pos + 1) s = magic then some (1, i)
      else if b2 ||| planeBit (pos + 2) s = magic then some (2, i)
      else scanAux pos rest' (i + 1) (((b0 ||| planeBit pos s) <<< 1) &&& mask36)
        (((b1 ||| planeBit (pos + 1) s) <<< 1) &&& mask36)
        (((b2 ||| planeBit (pos + 2) s) <<< 1) &&& mask36)) =
      specSearch samples pos ((samples.length - (i + 1)) + 1) i
    rw [hw0, hw1, hw2, specSearch]
    by_cases hm0 : windowVal samples pos 0 i = magic
    · rw [if_pos hm0, if_pos hm0]
    · rw [if_neg hm0, if_neg hm0]
      by_cases hm1 : windowVal samples pos 1 i = magic
      · rw [if_pos hm1, if_pos hm1]
      · rw [if_neg hm1, if_neg hm1]
        by_cases hm2 : windowVal samples pos 2 i = magic
        · rw [if_pos hm2, if_pos hm2]
        · rw [if_neg hm2, if_neg hm2]
          apply ih (i + 1) _ _ _ hdrop'
          · rw [regOf, if_neg (Nat.succ_ne_zero i)]
            simp
          · rw [regOf, if_neg (Nat.succ_ne_zero i)]
            simp
          · rw [regOf, if_neg (Nat.succ_ne_zero i)]
            simp

/-- The C++ scan loop computes exactly the spec-side first-match search. -/
theorem scanDetect_eq_specScan (samples : List (Int × Int)) (pos : Nat) :
    scanDetect samples pos = specScan samples pos := by
  have h := scanAux_eq_specSearch samples pos samples 0 0 0 0 rfl
    (by rw [regOf, if_pos rfl]) (by rw [regOf, if_pos rfl]) (by rw [regOf, if_pos rfl])
  simpa [scanDetect, specScan] using h

theorem noMatchAt_of_three (samples : List (Int × Int)) (pos j : Nat)
    (hm0 : windowVal samples pos 0 j ≠ magic) (hm1 : windowVal samples pos 1 j ≠ magic)
    (hm2 : windowVal samples pos 2 j ≠ magic) : noMatchAt samples pos j := by
  intro k' hk'
  interval_cases k' <;> assumption

theorem specSearch_some_iff (samples : List (Int × Int)) (pos : Nat) :
    ∀ (fuel j k i : Nat),
      specSearch samples pos fuel j = some (k, i) ↔
        (j ≤ i ∧ i < j + fuel ∧ k < 3 ∧ windowVal samples pos k i = magic ∧
         (∀ k', k' < k → windowVal samples pos k' i ≠ magic) ∧
         (∀ i', j ≤ i' → i' < i → noMatchAt samples pos i')) := by
  intro fuel
  induction fuel with
  | zero =>
    intro j k i
    constructor
    · intro h
      exact absurd h (by simp [specSearch])
    · intro h
      omega
  | succ fuel ih =>
    intro j k i
    rw [specSearch]
    by_cases hm0 : windowVal samples pos 0 j = magic
    · rw [if_pos hm0, Option.some.injEq, Prod.mk.injEq]
      constructor
      · rintro ⟨hk, hi⟩
        subst hk
        subst hi
        exact ⟨le_refl j, by omega, by norm_num, hm0, fun k' hk' => absurd hk' (by omega),
          fun i' h1 h2 => absurd (lt_of_le_of_lt h1 h2) (lt_irrefl _)⟩
      · rintro ⟨hji, _, hk3, hw, hmin, hpre⟩
        have hij : i = j := by
          by_contra hne
          have hji' : j < i := by omega
          exact hpre j (le_refl j) hji' 0 (by norm_num) hm0
        subst hij
        have hk0 : k = 0 := by
          by_contra hne
          exact hmin 0 (by omega) hm0
        exact ⟨hk0.symm, rfl⟩
    · rw [if_neg hm0]
      by_cases hm1 : windowVal samples pos 1 j = magic
      · rw [if_pos hm1, Option.some.injEq, Prod.mk.injEq]
        constructor
        · rintro ⟨hk, hi⟩
          subst hk
          subst hi
          refine ⟨le_refl j, by omega, by norm_num, hm1, ?_,
            fun i' h1 h2 => absurd (lt_of_le_of_lt h1 h2) (lt_irrefl _)⟩
          intro k' hk'
          interval_cases k'
          exact hm0
        · rintro ⟨hji, _, hk3, hw, hmin, hpre⟩
          have hij : i = j := by
            by_contra hne
            have hji' : j < i := by omega
            exact hpre j (le_refl j) hji' 1 (by norm_num) hm1
          subst hij
          have hk1 : k = 1 := by
            rcases Nat.lt_or_ge k 1 with hlt | hge
            · interval_cases k
              exact absurd hw hm0
            · rcases Nat.lt_or_ge k 2 with hlt2 | hge2
              · omega
              · exact absurd (hmin 1 (by omega)) (by simp [hm1])
          exact ⟨hk1.symm, rfl⟩
      · rw [if_neg hm1]
        by_cases hm2 : windowVal samples pos 2 j = magic
        · rw [if_pos hm2, Option.some.injEq, Prod.mk.injEq]
          constructor
          · rintro ⟨hk, hi⟩
            subst hk
            subst hi
            refine ⟨le_refl j, by omega, by norm_num, hm2, ?_,
              fun i' h1 h2 => absurd (lt_of_le_of_lt h1 h2) (lt_irrefl _)⟩
            intro k' hk'
            interval_cases k'
            · exact hm0
            · exact hm1
          · rintro ⟨hji, _, hk3, hw, hmin, hpre⟩
            have hij : i = j := by
              by_contra hne
              have hji' : j < i := by omega
              exact hpre j (le_refl j) hji' 2 (by norm_num) hm2
            subst hij
            have hk2 : k = 2 := by
              interval_cases k
              · exact absurd hw hm0
              · exact absurd hw hm1
              · rfl
            exact ⟨hk2.symm, rfl⟩
        · rw [if_neg hm2]
          rw [ih (j + 1) k i]
          have hnm : noMatchAt samples pos j := noMatchAt_of_three samples pos j hm0 hm1 hm2
          constructor
          · rintro ⟨hji, hbound, hk3, hw, hmin, hpre⟩
            refine ⟨by omega, by omega, hk3, hw, hmin, ?_⟩
            intro i' h1 h2
            rcases Nat.eq_or_lt_of_le h1 with heq | hlt
            · rw [← heq]
              exact hnm
            · exact hpre i' hlt h2
          · rintro ⟨hji, hbound, hk3, hw, hmin, hpre⟩
            have hji' : j + 1 ≤ i := by
              rcases Nat.eq_or_lt_of_le hji with heq | hlt
              · exact absurd hw (by rw [← heq]; exact hnm k hk3)
              · omega
            refine ⟨hji', by omega, hk3, hw, hmin, ?_⟩
            intro i' h1 h2
            exact hpre i' (by omega) h2

theorem specSearch_none_iff (samples : List (Int × Int)) (pos : Nat) :
    ∀ (fuel j : Nat),
      specSearch samples pos fuel j = none ↔
        ∀ i', j ≤ i' → i' < j + fuel → noMatchAt samples pos i' := by
  intro fuel
  induction fuel with
  | zero =>
    intro j
    constructor
    · intro _ i' h1 h2
      omega
    · intro _
      rfl
  | succ fuel ih =>
    intro j
    rw [specSearch]
    by_cases hm0 : windowVal samples pos 0 j = magic
    · rw [if_pos hm0]
      constructor
      · intro h
        exact absurd h (by simp)
      · intro h
        exact absurd hm0 (h j (le_refl j) (by omega) 0 (by norm_num))
    · rw [if_neg hm0]
      by_cases hm1 : windowVal samples pos 1 j = magic
      · rw [if_pos hm1]
        constructor
        · intro h
          exact absurd h (by simp)
        · intro h
          exact absurd hm1 (h j (le_refl j) (by omega) 1 (by norm_num))
      · rw [if_neg hm1]
        by_cases hm2 : windowVal samples pos 2 j = magic
        · rw [if_pos hm2]
          constructor
          · intro h
            exact absurd h (by simp)
          · intro h
            exact absurd hm2 (h j (le_refl j) (by omega) 2 (by norm_num))
        · rw [if_neg hm2]
          rw [ih (j + 1)]
          have hnm : noMatchAt samples pos j := noMatchAt_of_three samples pos j hm0 hm1 hm2
          constructor
          · intro h i' h1 h2
            rcases Nat.eq_or_lt_of_le h1 with heq | hlt
            · rw [← heq]
              exact hnm
            · exact h i' hlt (by omega)
          · intro h i' h1 h2
            exact h i' (by omega) (by omega)

/-! ## Decoder model

`MyDecoder::decode` (lines 141-167) initialises the FLAC decoder and then
runs `process_single` while fewer than `sample_rate * 3` samples are
decoded, no error is recorded, and the stream has not ended.  Each
`process_single` delivers one frame to `write_callback` (lines 97-113),
which either aborts on an unsupported format or appends the whole frame.
`decodeError` stands for an error recorded before the sample loop runs
(failed `init` or an `error_callback` report); end of stream is modelled by
exhaustion of the frame list. -/

/-- Once an error is recorded, the decode loop consumes nothing further. -/
theorem decodeLoop_stuck (channels bps limit : Nat) (frames : List (List (Int × Int)))
    (st : DecodeState) (h : st.errorMessage ≠ "") :
    decodeLoop channels bps limit frames st = st := by
  cases frames with
  | nil => rfl
  | cons f rest =>
    rw [decodeLoop, if_neg]
    intro hcon
    exact h hcon.2

/-- With a supported format the loop never records an error. -/
theorem decodeLoop_error_eq (channels bps limit : Nat)
    (hfmt : ¬(channels ≠ 2 ∨ (bps ≠ 16 ∧ bps ≠ 24))) :
    ∀ (frames : List (List (Int × Int))) (st : DecodeState),
      (decodeLoop channels bps limit frames st).errorMessage = st.errorMessage := by
  intro frames
  induction frames with
  | nil =>
    intro st
    rfl
  | cons f rest ih =>
    intro st
    rw [decodeLoop]
    by_cases hc : st.decodedSamples < limit ∧ st.errorMessage = ""
    · rw [if_pos hc, ih, write_callback, if_neg hfmt]
    · rw [if_neg hc]

/-- The loop's sample count never exceeds `limit - 1` plus one frame. -/
theorem decodeLoop_count_le (channels bps limit B : Nat) :
    ∀ (frames : List (List (Int × Int))) (st : DecodeState),
      (∀ f ∈ frames, f.length ≤ B) →
      (decodeLoop channels bps limit frames st).decodedSamples ≤
        max st.decodedSamples (limit - 1 + B) := by
  intro frames
  induction frames with
  | nil =>
    intro st _
    exact le_max_left _ _
  | cons f rest ih =>
    intro st hB
    rw [decodeLoop]
    by_cases hc : st.decodedSamples < limit ∧ st.errorMessage = ""
    · rw [if_pos hc]
      have hf : f.length ≤ B := hB f (List.mem_cons_self f rest)
      have hrest : ∀ g ∈ rest, g.length ≤ B := fun g hg => hB g (List.mem_cons_of_mem f hg)
      refine le_trans (ih (write_callback channels bps f st) hrest) ?_
      rw [write_callback]
      by_cases hfmt : channels ≠ 2 ∨ (bps ≠ 16 ∧ bps ≠ 24)
      · rw [if_pos hfmt]
      · rw [if_neg hfmt]
        have : st.decodedSamples + f.length ≤ limit - 1 + B := by omega
        simp only [max_le_iff]
        constructor
        · exact le_max_of_le_right this
        · exact le_max_right _ _
    · rw [if_neg hc]
      exact le_max_left _ _

/-- Decoded sample count and buffered sample count advance together. -/
theorem decodeLoop_len_inv (channels bps limit : Nat) :
    ∀ (frames : List (List (Int × Int))) (st : DecodeState),
      st.samples.length = st.decodedSamples →
      (decodeLoop channels bps limit frames st).samples.length =
        (decodeLoop channels bps limit frames st).decodedSamples := by
  intro frames
  induction frames with
  | nil =>
    intro st h
    exact h
  | cons f rest ih =>
    intro st h
    rw [decodeLoop]
    by_cases hc : st.decodedSamples < limit ∧ st.errorMessage = ""
    · rw [if_pos hc]
      apply ih
      rw [write_callback]
      by_cases hfmt : channels ≠ 2 ∨ (bps ≠ 16 ∧ bps ≠ 24)
      · rw [if_pos hfmt]
        exact h
      · rw [if_neg hfmt]
        simp [List.length_append, h]
    · rw [if_neg hc]
      exact h

/-! ### String helpers -/

theorem unsupportedMessage_ne_empty (channels bps : Nat) :
    unsupportedMessage channels bps ≠ "" := by
  intro h
  have hl := congrArg String.length h
  rw [unsupportedMessage, String.length_append, String.length_append,
    String.length_append, String.length_append] at hl
  have h1 : ("Unsupported Audio Format: ").length = 26 := rfl
  have h2 : (" channels, ").length = 11 := rfl
  have h3 : (" bits").length = 5 := rfl
  have h4 : ("" : String).length = 0 := rfl
  rw [h1, h2, h3, h4] at hl
  omega

theorem excMsg_ne_empty (e : Option String) : excMsg e ≠ "" := by
  cases e with
  | none =>
    intro h
    exact absurd (congrArg String.length h) (by decide)
  | some w =>
    intro h
    have hl := congrArg String.length h
    rw [excMsg, String.length_append] at hl
    have h1 : ("Exception: ").length = 11 := rfl
    have h4 : ("" : String).length = 0 := rfl
    rw [h1, h4] at hl
    omega

/-! ## Batch driver model (`main.cc`)

`processFile` (lines 220-392) is modelled by its effect on the two run
counters.  The branch-deciding data — header validation result, identifier
construction, and the guarded `detect()` call — are inputs; every branch of
the C++ function ends in `scanned_count++`, and `mqa_count++` runs exactly
in the `detected` branch. -/

/-- C3: for every code in 0..15, `OriginalSampleRateDecoder` equals the
spec's rule (base 44100/48000 by the low bit, times a bit-reversed
power-of-two multiplier, doubled once more above 16); in particular codes
0, 1 and 15 decode to 44100, 48000 and 12288000; every code outside 0..15
signals the invalid-bytecode error. -/
theorem C3_rate_decoder_table (c : Nat) :
    OriginalSampleRateDecoder c =
      (if c ≤ 15 then .ok (specDecodeOriginalRate c) else .error "Invalid bytecode") ∧
    OriginalSampleRateDecoder 0 = .ok 44100 ∧
    OriginalSampleRateDecoder 1 = .ok 48000 ∧
    OriginalSampleRateDecoder 15 = .ok 12288000 := by
  refine ⟨?_, by decide, by decide, by decide⟩
  by_cases h : c ≤ 15
  · rw [if_pos h]
    have htable : ∀ c', c' < 16 →
        OriginalSampleRateDecoder c' = .ok (specDecodeOriginalRate c') := by decide
    exact htable c (by omega)
  · rw [if_neg h, OriginalSampleRateDecoder, if_pos (by omega)]

/-- C1: the scanner of `detect()` reports `some (k, i)` exactly when the
36-bit synchronisation constant appears in the XOR-difference bit-plane at
offset `k` with its 36th bit arriving at sample `i`, no offset matches at
any earlier sample, and no smaller offset matches at sample `i` (offset 0
beats 1 beats 2); it reports `none` exactly when no window ever matches. -/
theorem C1_scanner_first_match (samples : List (Int × Int)) (pos : Nat) :
    (∀ k i, scanDetect samples pos = some (k, i) ↔
      (i < samples.length ∧ k < 3 ∧ windowVal samples pos k i = magic ∧
       (∀ k', k' < k → windowVal samples pos k' i ≠ magic) ∧
       (∀ i', i' < i → noMatchAt samples pos i'))) ∧
    (scanDetect samples pos = none ↔
      ∀ i, i < samples.length → noMatchAt samples pos i) := by
  constructor
  · intro k i
    rw [scanDetect_eq_specScan, specScan, specSearch_some_iff]
    constructor
    · rintro ⟨_, h2, h3, h4, h5, h6⟩
      exact ⟨by omega, h3, h4, h5, fun i' hi' => h6 i' (Nat.zero_le _) hi'⟩
    · rintro ⟨h1, h2, h3, h4, h5⟩
      exact ⟨Nat.zero_le _, by omega, h2, h3, h4, fun i' _ hi' => h5 i' hi'⟩
  · rw [scanDetect_eq_specScan, specScan, specSearch_none_iff]
    constructor
    · intro h i hi
      exact h i (Nat.zero_le _) (by omega)
    · intro h i _ hi
      exact h i (by omega)

set_option maxRecDepth 100000 in
/-- C1 witness: on the synthetic stream carrying the constant in plane 0,
the characterisation instantiates to a concrete detection at offset 0,
sample 35. -/
theorem C1_scanner_first_match_witness : scanDetect syncSamples 0 = some (0, 35) :=
  ((C1_scanner_first_match syncSamples 0).1 0 35).mpr (by decide)

theorem detectOk_of_error (inp : DecodeInput) (h : (decode inp).errorMessage ≠ "") :
    detectOk inp = some ⟨false, false, 0, (decode inp).errorMessage⟩ := by
  simp only [detectOk]
  rw [if_pos h]

theorem detectOk_clean (inp : DecodeInput) (h : (decode inp).errorMessage = "")
    (hscan : scanDetect (decode inp).samples (inp.bps - 16) = none) :
    detectOk inp = some ⟨false, false, 0, ""⟩ := by
  simp only [detectOk]
  rw [if_neg (fun hne => hne h), hscan]

set_option maxRecDepth 100000 in
/-- C2 evidence: on a stream whose synchronisation word ends at the final
sample, the scanner matches at offset 0, sample 35, and the subsequent
payload reads `*(&s + m)` fall outside the 36-element sample vector — an
out-of-bounds access (modelled by `none`), not the graceful
`originalSampleRate = 0` result the claim describes. -/
theorem C2_truncated_stream_oob_read :
    (decode c2Input).samples.length = 36 ∧
    scanDetect (decode c2Input).samples (c2Input.bps - 16) = some (0, 35) ∧
    extractORSF (decode c2Input).samples 0 35 = none ∧
    detect (.ok c2Input) = none := by decide

/-- C4: a stream that delivers at least one frame with an unsupported
format (wrong channel count or bit depth) makes `detect` return the
failure result carrying the non-empty unsupported-format message, with no
sample buffered — the scanner never sees any data. -/
theorem C4_unsupported_format_aborts (inp : DecodeInput)
    (hfmt : inp.channels ≠ 2 ∨ (inp.bps ≠ 16 ∧ inp.bps ≠ 24))
    (herr : inp.decodeError = "") (hsr : 0 < inp.sampleRate) (hfr : inp.frames ≠ []) :
    detect (.ok inp) = some ⟨false, false, 0, unsupportedMessage inp.channels inp.bps⟩ ∧
    unsupportedMessage inp.channels inp.bps ≠ "" ∧
    (decode inp).samples = [] := by
  obtain ⟨f, rest, hcons⟩ := List.exists_cons_of_ne_nil hfr
  have hlim : 0 < inp.sampleRate * 3 := by omega
  have hdec : decode inp = ⟨0, [], unsupportedMessage inp.channels inp.bps⟩ := by
    rw [decode, hcons, herr, decodeLoop, if_pos (⟨hlim, rfl⟩ :
      (⟨0, [], ""⟩ : DecodeState).decodedSamples < inp.sampleRate * 3 ∧
      (⟨0, [], ""⟩ : DecodeState).errorMessage = ""),
      write_callback, if_pos hfmt]
    exact decodeLoop_stuck _ _ _ rest _ (unsupportedMessage_ne_empty _ _)
  refine ⟨?_, unsupportedMessage_ne_empty _ _, by rw [hdec]⟩
  show detectOk inp = _
  have h := detectOk_of_error inp (by rw [hdec]; exact unsupportedMessage_ne_empty _ _)
  rw [h, hdec]

/-- C4 witness: a mono 32-bit stream with one frame is rejected with the
unsupported-format message. -/
theorem C4_unsupported_format_aborts_witness :
    detect (.ok ⟨44100, 1, 32, "", [[(0, 0)]]⟩) =
      some ⟨false, false, 0, unsupportedMessage 1 32⟩ :=
  (C4_unsupported_format_aborts ⟨44100, 1, 32, "", [[(0, 0)]]⟩ (Or.inl (by decide)) rfl
    (by decide) (by decide)).1

/-- C5: a supported-format stream that decodes without error and in which
no 36-bit window of any of the three tested bit-planes ever equals the
synchronisation constant makes `detect` return `false` with an empty error
message. -/
theorem C5_absence_is_not_error (inp : DecodeInput)
    (hch : inp.channels = 2) (hbps : inp.bps = 16 ∨ inp.bps = 24)
    (herr : inp.decodeError = "")
    (hnm : ∀ i, i < (decode inp).samples.length →
      noMatchAt (decode inp).samples (inp.bps - 16) i) :
    detect (.ok inp) = some ⟨false, false, 0, ""⟩ := by
  have hfmt : ¬(inp.channels ≠ 2 ∨ (inp.bps ≠ 16 ∧ inp.bps ≠ 24)) := by
    rcases hbps with h | h <;> simp [hch, h]
  have herr2 : (decode inp).errorMessage = "" := by
    rw [decode, decodeLoop_error_eq _ _ _ hfmt]
    exact herr
  have hscan : scanDetect (decode inp).samples (inp.bps - 16) = none := by
    rw [scanDetect_eq_specScan, specScan, specSearch_none_iff]
    intro i' _ h2
    exact hnm i' (by omega)
  show detectOk inp = _
  exact detectOk_clean inp herr2 hscan

/-- C5 witness: a two-sample silent stereo stream is reported not
watermarked with an empty error message. -/
theorem C5_absence_is_not_error_witness :
    detect (.ok ⟨1, 2, 16, "", [[(0, 0)]]⟩) = some ⟨false, false, 0, ""⟩ :=
  C5_absence_is_not_error ⟨1, 2, 16, "", [[(0, 0)]]⟩ rfl (Or.inl rfl) rfl (by decide)

/-- C6 counterexample: with `sampleRate = 1` (budget 3 samples) and a
single 4-sample frame, the decode step delivers 4 sample pairs — more than
`sampleRate * 3` — refuting the claimed bound. -/
theorem C6_three_second_bound_counterexample :
    (decode c6Input).samples.length = 4 ∧
    ¬((decode c6Input).samples.length ≤ c6Input.sampleRate * 3) := by decide

/-- C6 amended: the loop stops requesting frames once `sampleRate * 3`
samples are decoded, but appends whole frames, so with every frame of
blocksize at most `B` the delivered sequence holds at most
`sampleRate * 3 - 1 + B` sample pairs (it can exceed `sampleRate * 3` by
up to `B - 1`). -/
theorem C6_three_second_bound_amended (inp : DecodeInput) (B : Nat)
    (hB : ∀ f ∈ inp.frames, f.length ≤ B) :
    (decode inp).samples.length ≤ inp.sampleRate * 3 - 1 + B := by
  have hlen := decodeLoop_len_inv inp.channels inp.bps (inp.sampleRate * 3) inp.frames
    ⟨0, [], inp.decodeError⟩ rfl
  have hcount := decodeLoop_count_le inp.channels inp.bps (inp.sampleRate * 3) B inp.frames
    ⟨0, [], inp.decodeError⟩ hB
  rw [decode, hlen]
  refine le_trans hcount ?_
  simp

/-- C6 amended witness: the counterexample stream obeys the corrected
bound with `B = 4`. -/
theorem C6_three_second_bound_amended_witness :
    (decode c6Input).samples.length ≤ c6Input.sampleRate * 3 - 1 + 4 :=
  C6_three_second_bound_amended c6Input 4 (by decide)

/-- C10: a C++ exception escaping the decode/scan work inside `detect` is
caught by its catch clauses, which return `false` together with a
non-empty error message (either `"Exception: " ++ what` or the fixed
unknown-exception text). -/
theorem C10_exceptions_caught (e : Option String) :
    detect (.error e) = some ⟨false, false, 0, excMsg e⟩ ∧ excMsg e ≠ "" :=
  ⟨rfl, excMsg_ne_empty e⟩

/-- C7: every path of `processFile` increments `scanned_count` exactly
once; `mqa_count` is incremented exactly on a positive detection; the
three-file example run (one positive, one negative, one non-audio file)
ends with `scanned = 3` and `matched = 1`. -/
theorem C7_counters_per_task (hc : HeaderCheck) (ct : CtorOutcome) (det : DetectOutcome)
    (c : RunCounters) :
    (processFile hc ct det c).scanned_count = c.scanned_count + 1 ∧
    (processFile hc ct det c).mqa_count =
      c.mqa_count + (if isDetected hc ct det then 1 else 0) ∧
    runBatch [⟨.valid, .ok, .completed true ""⟩, ⟨.valid, .ok, .completed false ""⟩,
      ⟨.invalid, .ok, .completed false ""⟩] ⟨0, 0⟩ = ⟨3, 1⟩ := by
  refine ⟨?_, ?_, by decide⟩
  · cases hc with
    | invalid => rfl
    | threw m => rfl
    | valid =>
      cases ct with
      | threw m => rfl
      | ok =>
        cases det with
        | threw m => rfl
        | completed d e => cases d <;> rfl
  · cases hc with
    | invalid => rfl
    | threw m => rfl
    | valid =>
      cases ct with
      | threw m => rfl
      | ok =>
        cases det with
        | threw m => rfl
        | completed d e => cases d <;> rfl

theorem hasTag_append (es : List (String × String)) (k v key : String) :
    hasTag (es ++ [(k, v)]) key = (hasTag es key || decide (k = key)) := by
  simp [hasTag]

/-- A second `tagFile` run on an already fully tagged block is a no-op. -/
theorem tagFile_noop (es : List (String × String)) (rate : Nat)
    (h1 : hasTag es "MQAENCODER" = true)
    (h2 : 0 < rate → hasTag es "ORIGINALSAMPLERATE" = true) :
    tagFile false (some es) rate = (some es, false) := by
  by_cases hr : 0 < rate
  · have h2' := h2 hr
    simp [tagFile, h1, h2']
  · have hr0 : rate = 0 := by omega
    subst hr0
    simp [tagFile, h1]

/-- Structure of a `tagFile` result: it is always a present block that
carries the MQAENCODER tag, carries the ORIGINALSAMPLERATE tag whenever
the rate is positive, and carries ORIGINALSAMPLERATE no more often than
the input block when the rate is zero. -/
theorem tagFile_result_spec (block : Option (List (String × String))) (rate : Nat) :
    ∃ es, (tagFile false block rate).1 = some es ∧ hasTag es "MQAENCODER" = true ∧
      (0 < rate → hasTag es "ORIGINALSAMPLERATE" = true) ∧
      (rate = 0 →
        hasTag es "ORIGINALSAMPLERATE" = hasTag (block.getD []) "ORIGINALSAMPLERATE") := by
  by_cases henc : hasTag (block.getD []) "MQAENCODER" = true
  · by_cases hr : 0 < rate
    · by_cases ho : hasTag (block.getD []) "ORIGINALSAMPLERATE" = false
      · refine ⟨block.getD [] ++ [("ORIGINALSAMPLERATE", toString rate)], ?_, ?_, ?_, ?_⟩
        · simp [tagFile, henc, hr, ho]
        · rw [hasTag_append, henc, Bool.true_or]
        · intro _
          rw [hasTag_append, ho]
          simp
        · intro hr0
          omega
      · have ho' : hasTag (block.getD []) "ORIGINALSAMPLERATE" = true := by
          revert ho
          cases hasTag (block.getD []) "ORIGINALSAMPLERATE" <;> simp
        refine ⟨block.getD [], ?_, henc, fun _ => ho', fun hr0 => by omega⟩
        simp [tagFile, henc, ho']
    · have hr0 : rate = 0 := by omega
      subst hr0
      refine ⟨block.getD [], ?_, henc, fun h => by omega, fun _ => rfl⟩
      simp [tagFile, henc]
  · have henc' : hasTag (block.getD []) "MQAENCODER" = false := by
      revert henc
      cases hasTag (block.getD []) "MQAENCODER" <;> simp
    have hencapp : hasTag (block.getD [] ++ [("MQAENCODER", encoderTagValue)]) "MQAENCODER"
        = true := by
      rw [hasTag_append, henc']
      simp
    have horapp : hasTag (block.getD [] ++ [("MQAENCODER", encoderTagValue)])
        "ORIGINALSAMPLERATE" = hasTag (block.getD []) "ORIGINALSAMPLERATE" := by
      rw [hasTag_append]
      simp
    by_cases hr : 0 < rate
    · by_cases ho : hasTag (block.getD []) "ORIGINALSAMPLERATE" = false
      · refine ⟨block.getD [] ++ [("MQAENCODER", encoderTagValue)] ++
          [("ORIGINALSAMPLERATE", toString rate)], ?_, ?_, ?_, fun hr0 => by omega⟩
        · simp [tagFile, henc', hr, horapp, ho]
        · rw [hasTag_append, hencapp, Bool.true_or]
        · intro _
          rw [hasTag_append]
          simp
      · have ho' : hasTag (block.getD []) "ORIGINALSAMPLERATE" = true := by
          revert ho
          cases hasTag (block.getD []) "ORIGINALSAMPLERATE" <;> simp
        refine ⟨block.getD [] ++ [("MQAENCODER", encoderTagValue)], ?_, hencapp,
          fun _ => by rw [horapp]; exact ho', fun hr0 => by omega⟩
        simp [tagFile, henc', horapp, ho']
    · have hr0 : rate = 0 := by omega
      subst hr0
      refine ⟨block.getD [] ++ [("MQAENCODER", encoderTagValue)], ?_, hencapp,
        fun h => by omega, fun _ => horapp⟩
      simp [tagFile, henc']

/-- C8: the tag writer is idempotent — running it on its own output makes
no modification; on a block already carrying MQAENCODER (and, when the
rate is positive, ORIGINALSAMPLERATE) it makes no modification and appends
nothing; and with rate 0 the ORIGINALSAMPLERATE tag is never added. -/
theorem C8_tag_writer_idempotent (block : Option (List (String × String))) (rate : Nat) :
    tagFile false (tagFile false block rate).1 rate = ((tagFile false block rate).1, false) ∧
    (∀ es, hasTag es "MQAENCODER" = true →
      (0 < rate → hasTag es "ORIGINALSAMPLERATE" = true) →
      tagFile false (some es) rate = (some es, false)) ∧
    (rate = 0 →
      hasTag ((tagFile false block rate).1.getD []) "ORIGINALSAMPLERATE" =
        hasTag (block.getD []) "ORIGINALSAMPLERATE") := by
  obtain ⟨es, hfst, henc, horate, hor0⟩ := tagFile_result_spec block rate
  refine ⟨?_, fun es' h1 h2 => tagFile_noop es' rate h1 h2, ?_⟩
  · rw [hfst]
    exact tagFile_noop es rate henc horate
  · intro hr0
    rw [hfst, Option.getD_some]
    exact hor0 hr0

/-- C8 witness: a block already holding both tags is untouched by a run
with a positive rate. -/
theorem C8_tag_writer_idempotent_witness :
    tagFile false (some [("MQAENCODER", encoderTagValue), ("ORIGINALSAMPLERATE", "96000")])
      96000 =
      (some [("MQAENCODER", encoderTagValue), ("ORIGINALSAMPLERATE", "96000")], false) :=
  (C8_tag_writer_idempotent
    (some [("MQAENCODER", encoderTagValue), ("ORIGINALSAMPLERATE", "96000")]) 96000).2.1
    [("MQAENCODER", encoderTagValue), ("ORIGINALSAMPLERATE", "96000")]
    (by decide) (fun _ => by decide)

end MQA
